import Mathlib

/-!
Verification of the order-management core of the
`nest-order-management-system-api` repository: the unit-of-measure
conversion layer (`UomConversionService`), the inventory ledger and order
status machine (`AdminService`), order creation (`OrdersService.create`),
and stock adjustment (`ProductsService.updateStock`).

Numeric quantities (Prisma `Decimal` columns and JS `number` values) are
embedded as `ℚ`.  Where a claim is specifically about the binary
floating-point behaviour of the running JS code, a separate binary64
model (`round53`, `convertToBaseUomFP`) is used.  Prisma `$transaction`
callbacks are embedded as `Except`-valued functions: a thrown exception
rolls the transaction back, so an `.error` result leaves the store
unchanged.
-/

namespace OMS

/-- Order status enum, from the Prisma `OrderStatus` enum used throughout
`admin.service.ts` and `orders.service.ts`. -/
inductive OrderStatus where
  | PENDING
  | APPROVED
  | FULFILLED
  | CANCELLED
  deriving DecidableEq, Repr

/-- Units of measure.  The TS code has two Prisma enums, `RequestedUom`
(GRAM, KILOGRAM, TON, MILLILITER, LITER, METER, CENTIMETER, KILOMETER,
PIECE) and `BaseUom`; both are embedded into this single carrier, which
covers every unit named in `uom-conversion.service.ts`. -/
inductive Uom where
  | GRAM
  | KILOGRAM
  | TON
  | MILLILITER
  | LITER
  | METER
  | CENTIMETER
  | KILOMETER
  | PIECE
  deriving DecidableEq, Repr

/-- One entry of the static conversion table (`ConversionRule` in
`uom-conversion.service.ts`; the TS field `from` is `fromUom` here
because `from` is a Lean keyword). -/
structure ConversionRule where
  fromUom : Uom
  toUom : Uom
  factor : ℚ
  deriving DecidableEq, Repr

/-- The static conversion table `UomConversionService.conversionRules`,
entry for entry in source order.  The TS literals `0.01` and `0.001` are
written as the exact decimals they denote; the binary64 model applies
`round53` to a factor before using it. -/
def conversionRules : List ConversionRule :=
  [ -- Weight conversions to GRAM
    ⟨.GRAM, .GRAM, 1⟩,
    ⟨.KILOGRAM, .GRAM, 1000⟩,
    ⟨.TON, .GRAM, 1000000⟩,
    -- Volume conversions to MILLILITER
    ⟨.MILLILITER, .MILLILITER, 1⟩,
    ⟨.LITER, .MILLILITER, 1000⟩,
    -- Length conversions to METER
    ⟨.METER, .METER, 1⟩,
    ⟨.CENTIMETER, .METER, 1/100⟩,
    ⟨.KILOMETER, .METER, 1000⟩,
    -- Count conversions
    ⟨.PIECE, .PIECE, 1⟩,
    -- Cross conversions for weight
    ⟨.KILOGRAM, .KILOGRAM, 1⟩,
    ⟨.GRAM, .KILOGRAM, 1/1000⟩,
    -- Cross conversions for volume
    ⟨.LITER, .LITER, 1⟩,
    ⟨.MILLILITER, .LITER, 1/1000⟩ ]

/-- Rule lookup, as in `convertToBaseUom`:
`conversionRules.find(r => r.from === requestedUom && r.to === baseUom)`. -/
def findRule (requestedUom baseUom : Uom) : Option ConversionRule :=
  conversionRules.find? fun r =>
    decide (r.fromUom = requestedUom) && decide (r.toUom = baseUom)

/-- Value-level model of `UomConversionService.convertToBaseUom`: look up
the rule and multiply; a missing rule throws (`none` here).  Arithmetic is
exact rational arithmetic; `convertToBaseUomFP` below models the same
source line at the binary64 level. -/
def convertToBaseUom (quantity : ℚ) (requestedUom baseUom : Uom) : Option ℚ :=
  (findRule requestedUom baseUom).map fun r => quantity * r.factor

/-- Model of `UomConversionService.isCompatible`: true iff a conversion
rule exists for the pair. -/
def isCompatible (requestedUom baseUom : Uom) : Bool :=
  conversionRules.any fun r =>
    decide (r.fromUom = requestedUom) && decide (r.toUom = baseUom)

/-- Table membership of a no-op self conversion `(u, u, factor 1)`, the
shape §4.1 of the spec requires for every supported unit. -/
def hasSelfRule (u : Uom) : Bool :=
  conversionRules.any fun r =>
    decide (r.fromUom = u) && decide (r.toUom = u) && decide (r.factor = 1)

/-- One `inventory` row (1:1 with a product): `quantityInBaseUom` and
`reservedQuantity` Decimal columns. -/
structure Inventory where
  quantityInBaseUom : ℚ
  reservedQuantity : ℚ
  deriving DecidableEq, Repr

/-- The `inventory` table, keyed by `productId`.  The database enforces
one row per product; the embedding keeps rows as an association list. -/
abbrev InventoryDb : Type := List (ℕ × Inventory)

/-- Model of `tx.inventory.findUnique({ where: { productId } })`: the
first row with the given product id. -/
def findInv (db : InventoryDb) (productId : ℕ) : Option Inventory :=
  (db.find? fun e => decide (e.1 = productId)).map (·.2)

/-- Model of `tx.inventory.update({ where: { productId }, data:
{ quantityInBaseUom: { increment: delta } } })` (a `decrement` is an
`increment` of the negated amount): rewrite the matching row in place. -/
def updateInvQty (db : InventoryDb) (productId : ℕ) (delta : ℚ) : InventoryDb :=
  db.map fun e =>
    if e.1 = productId then
      (e.1, { e.2 with quantityInBaseUom := e.2.quantityInBaseUom + delta })
    else e

/-- One order line item (`order_items` row), with the converted quantity
and price frozen at creation time. -/
structure OrderItem where
  productId : ℕ
  quantityRequested : ℚ
  requestedUom : Uom
  quantityInBaseUom : ℚ
  unitPriceInBaseUom : ℚ
  lineTotal : ℚ
  deriving DecidableEq, Repr

/-- An `orders` row together with its included line items (the shape
`AdminService.updateOrderStatus` loads with `include: { items: ... }`). -/
structure Order where
  id : ℕ
  buyerId : ℕ
  status : OrderStatus
  totalAmount : ℚ
  items : List OrderItem
  deriving DecidableEq, Repr

/-- One `order_status_history` row (`fromStatus` nullable for the initial
entry). -/
structure HistoryEntry where
  orderId : ℕ
  fromStatus : Option OrderStatus
  toStatus : OrderStatus
  changedById : ℕ
  deriving DecidableEq, Repr

/-- The slice of the database that `AdminService.updateOrderStatus`
touches: orders (with items), inventories and the status history. -/
structure Db where
  orders : List Order
  inventories : InventoryDb
  statusHistory : List HistoryEntry
  deriving DecidableEq, Repr

/-- Model of `prisma.order.findUnique({ where: { id: orderId } })`. -/
def findOrder (orders : List Order) (orderId : ℕ) : Option Order :=
  orders.find? fun o => decide (o.id = orderId)

/-- Model of `tx.order.update({ where: { id: orderId }, data: { status } })`. -/
def setOrderStatus (orders : List Order) (orderId : ℕ) (status : OrderStatus) :
    List Order :=
  orders.map fun o => if o.id = orderId then { o with status := status } else o

/-- Errors thrown by `AdminService.updateOrderStatus` and the stock
helpers (`NotFoundException` / `BadRequestException` with the
corresponding messages). -/
inductive AdminError where
  | orderNotFound
  | invalidTransition (currentStatus targetStatus : OrderStatus)
  | noInventory (productId : ℕ)
  | insufficientStock (productId : ℕ) (available required : ℚ)
  deriving DecidableEq, Repr

/-- Transition table of `AdminService.validateStatusTransition`
(`validTransitions`), row for row. -/
def validTransitions : OrderStatus → List OrderStatus
  | .PENDING => [.APPROVED, .CANCELLED]
  | .APPROVED => [.FULFILLED, .CANCELLED]
  | .FULFILLED => []  -- No transitions from fulfilled
  | .CANCELLED => []  -- No transitions from cancelled

/-- Model of `AdminService.validateStatusTransition`: the target must be
listed for the current status. -/
def validateStatusTransition (currentStatus newStatus : OrderStatus) : Bool :=
  (validTransitions currentStatus).contains newStatus

/-- Model of `AdminService.deductStockForOrder`: for each item in order,
re-fetch the inventory row, fail when it is absent, fail with the
insufficient-stock error when `quantityInBaseUom - reservedQuantity` is
below the item's base quantity, otherwise decrement the stock and move to
the next item.  An `.error` aborts the enclosing transaction. -/
def deductStockForOrder (db : InventoryDb) : List OrderItem → Except AdminError InventoryDb
  | [] => .ok db
  | item :: rest =>
    match findInv db item.productId with
    | none => .error (.noInventory item.productId)
    | some currentInventory =>
      let availableStock :=
        currentInventory.quantityInBaseUom - currentInventory.reservedQuantity
      let requiredQuantity := item.quantityInBaseUom
      if availableStock < requiredQuantity then
        .error (.insufficientStock item.productId availableStock requiredQuantity)
      else
        deductStockForOrder (updateInvQty db item.productId (-requiredQuantity)) rest

/-- Model of `AdminService.restoreStockForOrder`: increment each item's
inventory row by the item's base quantity.  Prisma's `update` throws when
the row is missing, which aborts the transaction, hence the `.error`
branch. -/
def restoreStockForOrder (db : InventoryDb) : List OrderItem → Except AdminError InventoryDb
  | [] => .ok db
  | item :: rest =>
    match findInv db item.productId with
    | none => .error (.noInventory item.productId)
    | some _ =>
      restoreStockForOrder (updateInvQty db item.productId item.quantityInBaseUom) rest

/-- Model of `AdminService.updateOrderStatus`: fetch the order, validate
the transition, then run one transaction that updates the status, appends
the history entry and performs the per-transition stock operation.  A
thrown error anywhere inside the transaction rolls the whole transaction
back, which the `Except` result models: the caller's store changes only
on `.ok`. -/
def updateOrderStatus (db : Db) (orderId : ℕ) (newStatus : OrderStatus)
    (adminId : ℕ) : Except AdminError Db :=
  match findOrder db.orders orderId with
  | none => .error .orderNotFound
  | some order =>
    let currentStatus := order.status
    if validateStatusTransition currentStatus newStatus then
      -- Transaction body: status update, history entry, stock operation.
      let db1 : Db :=
        { db with
          orders := setOrderStatus db.orders orderId newStatus
          statusHistory :=
            db.statusHistory ++ [⟨orderId, some currentStatus, newStatus, adminId⟩] }
      if currentStatus = .PENDING ∧ newStatus = .APPROVED then
        match deductStockForOrder db1.inventories order.items with
        | .error e => .error e
        | .ok inv => .ok { db1 with inventories := inv }
      else if currentStatus = .APPROVED ∧ newStatus = .CANCELLED then
        match restoreStockForOrder db1.inventories order.items with
        | .error e => .error e
        | .ok inv => .ok { db1 with inventories := inv }
      else
        .ok db1
    else
      .error (.invalidTransition currentStatus newStatus)

/-- The store an API caller observes after `updateOrderStatus`: the new
store on success, the unchanged store when the call threw (transaction
rollback). -/
def applyUpdateOrderStatus (db : Db) (orderId : ℕ) (newStatus : OrderStatus)
    (adminId : ℕ) : Db :=
  match updateOrderStatus db orderId newStatus adminId with
  | .ok db1 => db1
  | .error _ => db

/-- The stored quantity of a product's inventory row, if the row exists. -/
def qtyOpt (db : InventoryDb) (productId : ℕ) : Option ℚ :=
  (findInv db productId).map (·.quantityInBaseUom)

/-- The stored reserved quantity of a product's inventory row, if the row
exists. -/
def reservedOpt (db : InventoryDb) (productId : ℕ) : Option ℚ :=
  (findInv db productId).map (·.reservedQuantity)

/-- Available stock of a product as the services compute it:
`quantityInBaseUom - reservedQuantity` (0 when there is no row, matching
the `|| new Decimal(0)` defaults in `orders.service.ts`). -/
def availableOf (db : InventoryDb) (productId : ℕ) : ℚ :=
  match findInv db productId with
  | some inv => inv.quantityInBaseUom - inv.reservedQuantity
  | none => 0

/-- Total base quantity a list of line items requires of one product
(several items of an order may reference the same product). -/
def sumReqAt (items : List OrderItem) (productId : ℕ) : ℚ :=
  (items.map fun i =>
    if i.productId = productId then i.quantityInBaseUom else 0).sum

/-- User roles, from the Prisma `UserRole` enum. -/
inductive UserRole where
  | ADMIN
  | SUPPLIER
  | BUYER
  deriving DecidableEq, Repr

/-- A `products` row, restricted to the columns the modelled operations
read.  The included 1:1 inventory row lives in the separate
`InventoryDb`. -/
structure Product where
  id : ℕ
  supplierId : ℕ
  baseUom : Uom
  pricePerBaseUom : ℚ
  isActive : Bool
  deriving DecidableEq, Repr

/-- Result shape of `ProductsService.checkStockAvailability`.  The
no-inventory result carries only `available` and `availableQuantity`;
the `totalStock` and `reservedQuantity` fields are absent, which the
`Option` fields model. -/
structure StockAvailability where
  available : Bool
  availableQuantity : ℚ
  totalStock : Option ℚ
  reservedQuantity : Option ℚ
  deriving DecidableEq, Repr

/-- Model of `ProductsService.checkStockAvailability`: a missing
inventory row yields `{ available: false, availableQuantity: 0 }`;
otherwise availability compares `quantityInBaseUom - reservedQuantity`
with the required quantity. -/
def checkStockAvailability (invs : InventoryDb) (productId : ℕ)
    (requiredQuantityInBase : ℚ) : StockAvailability :=
  match findInv invs productId with
  | none =>
    { available := false, availableQuantity := 0
      totalStock := none, reservedQuantity := none }
  | some inventory =>
    let availableQuantity :=
      inventory.quantityInBaseUom - inventory.reservedQuantity
    { available := decide (requiredQuantityInBase ≤ availableQuantity)
      availableQuantity := availableQuantity
      totalStock := some inventory.quantityInBaseUom
      reservedQuantity := some inventory.reservedQuantity }

/-- Errors thrown by `ProductsService.updateStock` (`NotFoundException`,
`ForbiddenException`, `ConflictException` in the source). -/
inductive StockError where
  | productNotFound
  | forbidden
  | uomMismatch
  | inventoryNotFound
  | insufficientStock
  deriving DecidableEq, Repr

/-- Model of `ProductsService.updateStock`.  The source finds the
product, checks supplier ownership and UOM compatibility, converts the
delta to base units, then runs `prisma.inventory.update` with an
`increment` and only AFTERWARDS tests `updatedInventory.quantityInBaseUom
< 0`, throwing `ConflictException` with no enclosing transaction.  The
result therefore pairs the store as actually persisted with the
call's outcome: on the negative-stock error the incremented row
remains stored. -/
def updateStock (products : List Product) (invs : InventoryDb) (id : ℕ)
    (quantity : ℚ) (uom : Uom) (userId : ℕ) (userRole : UserRole) :
    InventoryDb × Except StockError Inventory :=
  match products.find? fun p => decide (p.id = id) with
  | none => (invs, .error .productNotFound)
  | some product =>
    if userRole = .SUPPLIER ∧ product.supplierId ≠ userId then
      (invs, .error .forbidden)
    else if !isCompatible uom product.baseUom then
      (invs, .error .uomMismatch)
    else
      match convertToBaseUom quantity uom product.baseUom with
      | none => (invs, .error .uomMismatch)
      | some quantityInBaseUom =>
        match findInv invs id with
        | none => (invs, .error .inventoryNotFound)
        | some inv =>
          let invs1 := updateInvQty invs id quantityInBaseUom
          let updatedInventory :=
            { inv with quantityInBaseUom := inv.quantityInBaseUom + quantityInBaseUom }
          if updatedInventory.quantityInBaseUom < 0 then
            (invs1, .error .insufficientStock)
          else
            (invs1, .ok updatedInventory)

/-- Buyer input for one line of `OrdersService.create`
(`CreateOrderItemDto`). -/
structure CreateItemInput where
  productId : ℕ
  quantityRequested : ℚ
  requestedUom : Uom
  deriving DecidableEq, Repr

/-- Errors thrown by `OrdersService.create` (all
`BadRequestException`s in the source). -/
inductive CreateError where
  | productsNotFoundOrInactive
  | productNotFound (productId : ℕ)
  | uomMismatch (requestedUom baseUom : Uom)
  | insufficientStock (productId : ℕ)
  deriving DecidableEq, Repr

/-- The per-item loop of `OrdersService.create`: find the product, check
UOM compatibility, convert the quantity, soft-check stock, price the
line (`lineTotal = quantityInBaseUom * unitPriceInBaseUom`) and
accumulate `totalAmount`. -/
def processItems (products : List Product) (invs : InventoryDb) :
    List CreateItemInput → Except CreateError (List OrderItem × ℚ)
  | [] => .ok ([], 0)
  | item :: rest =>
    match products.find? fun p => decide (p.id = item.productId) with
    | none => .error (.productNotFound item.productId)
    | some product =>
      if !isCompatible item.requestedUom product.baseUom then
        .error (.uomMismatch item.requestedUom product.baseUom)
      else
        match convertToBaseUom item.quantityRequested item.requestedUom
            product.baseUom with
        | none => .error (.uomMismatch item.requestedUom product.baseUom)
        | some quantityInBaseUom =>
          let quantityInStock := (qtyOpt invs item.productId).getD 0
          let reservedQuantity := (reservedOpt invs item.productId).getD 0
          let availableStock := quantityInStock - reservedQuantity
          if availableStock < quantityInBaseUom then
            .error (.insufficientStock item.productId)
          else
            let unitPriceInBaseUom := product.pricePerBaseUom
            let lineTotal := quantityInBaseUom * unitPriceInBaseUom
            match processItems products invs rest with
            | .error e => .error e
            | .ok (items, total) =>
              .ok (⟨item.productId, item.quantityRequested, item.requestedUom,
                    quantityInBaseUom, unitPriceInBaseUom, lineTotal⟩ :: items,
                   lineTotal + total)

/-- Model of `OrdersService.create` up to persistence: load the active
referenced products (`findMany({ id: { in: productIds }, isActive:
true })`), compare counts, run the item loop, and materialize the PENDING
order with the accumulated `totalAmount`. -/
def createOrder (products : List Product) (invs : InventoryDb)
    (buyerId newOrderId : ℕ) (items : List CreateItemInput) :
    Except CreateError Order :=
  let productIds := items.map (·.productId)
  let loaded := products.filter fun p => p.isActive && productIds.contains p.id
  if loaded.length ≠ productIds.length then
    .error .productsNotFoundOrInactive
  else
    match processItems loaded invs items with
    | .error e => .error e
    | .ok (orderItems, totalAmount) =>
      .ok { id := newOrderId, buyerId := buyerId, status := .PENDING,
            totalAmount := totalAmount, items := orderItems }

/-- One ledger operation of §4.2: the stock deduction run by a
PENDING→APPROVED transition, or the restoration run by an
APPROVED→CANCELLED transition, each over an order's line items. -/
inductive LedgerOp where
  | deduct (items : List OrderItem)
  | restore (items : List OrderItem)
  deriving Repr

/-- The line items an operation touches. -/
def opItems : LedgerOp → List OrderItem
  | .deduct items => items
  | .restore items => items

/-- Run one ledger operation (the corresponding `AdminService` helper
inside its transaction). -/
def runLedgerOp (db : InventoryDb) : LedgerOp → Except AdminError InventoryDb
  | .deduct items => deductStockForOrder db items
  | .restore items => restoreStockForOrder db items

/-- The store after one ledger operation: unchanged when the transaction
rolled back. -/
def applyLedgerOp (db : InventoryDb) (op : LedgerOp) : InventoryDb :=
  match runLedgerOp db op with
  | .ok db1 => db1
  | .error _ => db

/-- The store after a sequence of ledger operations. -/
def applyLedgerOps (db : InventoryDb) : List LedgerOp → InventoryDb
  | [] => db
  | op :: rest => applyLedgerOps (applyLedgerOp db op) rest

/-- Inventory invariant of §3: reserved quantity between 0 and the stock
on hand, for every row. -/
def invariantHolds (db : InventoryDb) : Prop :=
  ∀ e ∈ db, 0 ≤ e.2.reservedQuantity ∧
    e.2.reservedQuantity ≤ e.2.quantityInBaseUom

instance (db : InventoryDb) : Decidable (invariantHolds db) := by
  unfold invariantHolds; infer_instance

/-- Distinctness of the inventory table's product ids (the database's
1:1 product-inventory constraint). -/
def keysNodup (db : InventoryDb) : Prop := (db.map Prod.fst).Nodup

instance (db : InventoryDb) : Decidable (keysNodup db) := by
  unfold keysNodup; infer_instance

/-- The `padStart(3, '0')` of the order-number template. -/
def padSeq (seq : ℕ) : String :=
  let s := toString seq
  if s.length < 3 then String.mk (List.replicate (3 - s.length) '0') ++ s else s

/-- The order-number template of `OrdersService.create`:
`ORD-<year>-<zero-padded count+1>`. -/
def mkOrderNumber (year seq : ℕ) : String :=
  "ORD-" ++ toString year ++ "-" ++ padSeq seq

/-- Failure of the order insert: the database's unique constraint on
`orderNumber` rejects a duplicate and the creation transaction rolls
back.  Modelled from the spec: `schema.prisma` is not part of the
sources, and §3 declares `orderNumber` unique. -/
inductive OrderNumberError where
  | duplicateOrderNumber
  deriving DecidableEq, Repr

/-- The insert step of `OrdersService.create` for the purposes of
order-number generation: given the `prisma.order.count()` value read
earlier, format `ORD-<year>-<count+1>` and insert it.  Modelled from the
spec for the constraint part: a duplicate `orderNumber` violates the
unique constraint, the transaction rolls back and the call fails. -/
def insertOrder (db : List String) (year orderCount : ℕ) :
    List String × Except OrderNumberError (ℕ × String) :=
  let seq := orderCount + 1
  let num := mkOrderNumber year seq
  if num ∈ db then (db, .error .duplicateOrderNumber)
  else (db ++ [num], .ok (seq, num))

/-- The six interleavings of two concurrent `create` calls A and B, each
split into its two steps: read `prisma.order.count()` (r) and insert the
formatted order number (i), with each call's read before its insert. -/
inductive Sched where
  | raiarbib
  | rarbiaib
  | rarbibia
  | rbraiaib
  | rbraibia
  | rbibraia
  deriving DecidableEq, Repr

/-- Run two concurrent `create` calls A and B under a given
interleaving over a store of existing order numbers, returning the final
store and each call's outcome.  A read takes the current `db.length`
(`prisma.order.count()`); an insert uses the count its call read.  The
first component of each pattern name lists the event order. -/
def runSched (db0 : List String) (year : ℕ) :
    Sched → List String × Except OrderNumberError (ℕ × String)
              × Except OrderNumberError (ℕ × String)
  | .raiarbib =>
    -- A reads, A inserts, B reads (the post-insert count), B inserts
    ((insertOrder (insertOrder db0 year db0.length).1 year
        (insertOrder db0 year db0.length).1.length).1,
     (insertOrder db0 year db0.length).2,
     (insertOrder (insertOrder db0 year db0.length).1 year
        (insertOrder db0 year db0.length).1.length).2)
  | .rarbiaib =>
    -- both read the same count, then A inserts, then B inserts
    ((insertOrder (insertOrder db0 year db0.length).1 year db0.length).1,
     (insertOrder db0 year db0.length).2,
     (insertOrder (insertOrder db0 year db0.length).1 year db0.length).2)
  | .rarbibia =>
    -- both read the same count, then B inserts, then A inserts
    ((insertOrder (insertOrder db0 year db0.length).1 year db0.length).1,
     (insertOrder (insertOrder db0 year db0.length).1 year db0.length).2,
     (insertOrder db0 year db0.length).2)
  | .rbraiaib =>
    -- reads in the other order (counts are equal), A inserts, B inserts
    ((insertOrder (insertOrder db0 year db0.length).1 year db0.length).1,
     (insertOrder db0 year db0.length).2,
     (insertOrder (insertOrder db0 year db0.length).1 year db0.length).2)
  | .rbraibia =>
    -- reads in the other order, B inserts, A inserts
    ((insertOrder (insertOrder db0 year db0.length).1 year db0.length).1,
     (insertOrder (insertOrder db0 year db0.length).1 year db0.length).2,
     (insertOrder db0 year db0.length).2)
  | .rbibraia =>
    -- B reads, B inserts, A reads (the post-insert count), A inserts
    ((insertOrder (insertOrder db0 year db0.length).1 year
        (insertOrder db0 year db0.length).1.length).1,
     (insertOrder (insertOrder db0 year db0.length).1 year
        (insertOrder db0 year db0.length).1.length).2,
     (insertOrder db0 year db0.length).2)

/-- Fuel-driven floor of the base-2 logarithm (structural recursion so
that concrete values reduce inside the kernel). -/
def log2Fuel : ℕ → ℕ → ℕ
  | 0, _ => 0
  | fuel + 1, n => if n ≤ 1 then 0 else log2Fuel fuel (n / 2) + 1

/-- Floor of the base-2 logarithm of a positive natural number. -/
def floorLog2 (n : ℕ) : ℕ := log2Fuel n n

/-- Round a rational to an integer, ties to even — the rounding of IEEE
754 round-to-nearest-even applied to a scaled significand. -/
def mhe (q : ℚ) : ℤ :=
  let f := ⌊q⌋
  let r := q - (f : ℚ)
  if r < 1 / 2 then f
  else if 1 / 2 < r then f + 1
  else if f % 2 = 0 then f else f + 1

/-- First candidate for the scaling exponent `e` with
`q * 2 ^ e ∈ [2 ^ 52, 2 ^ 53)`; the true exponent is this or this
plus one. -/
def binadeExp (q : ℚ) : ℤ :=
  52 - ((floorLog2 q.num.natAbs : ℤ) - (floorLog2 q.den : ℤ))

/-- The scaling exponent that brings a positive rational into the
binade `[2 ^ 52, 2 ^ 53)`. -/
def pickExp (q : ℚ) : ℤ :=
  if 2 ^ 52 ≤ ⌊q * (2 : ℚ) ^ binadeExp q⌋ ∧ ⌊q * (2 : ℚ) ^ binadeExp q⌋ < 2 ^ 53
  then binadeExp q
  else binadeExp q + 1

/-- Binary64 rounding of a positive rational: scale into `[2^52, 2^53)`,
round the significand to the nearest integer (ties to even), scale
back. -/
def roundPos (q : ℚ) : ℚ :=
  (mhe (q * (2 : ℚ) ^ pickExp q) : ℚ) * (2 : ℚ) ^ (-pickExp q)

/-- Round-to-nearest-even binary64 rounding of a rational, for values in
the normal finite range (subnormals and overflow do not occur for the
quantities this system handles).  This is the value a JS `number`
assignment or arithmetic result stores. -/
def round53 (q : ℚ) : ℚ :=
  if q = 0 then 0
  else if q < 0 then -roundPos (-q)
  else roundPos q

/-- Binary64-level model of the same source line
`quantity * rule.factor` of `UomConversionService.convertToBaseUom`: the
stored factor is the binary64 value of the TS literal
(`round53 r.factor`), and the JS multiplication rounds the exact product
to binary64 once. -/
def convertToBaseUomFP (quantity : ℚ) (requestedUom baseUom : Uom) : Option ℚ :=
  (findRule requestedUom baseUom).map fun r =>
    round53 (quantity * round53 r.factor)

/-- Example line item: 2 KILOGRAM of product 1, converted to 2000 GRAM at
0.005 per gram. -/
def itemRice : OrderItem := ⟨1, 2, .KILOGRAM, 2000, 1/200, 10⟩

/-- Example line item: 500 GRAM of product 2, more than product 2
stocks. -/
def itemFlour : OrderItem := ⟨2, 500, .GRAM, 500, 3/1000, 3/2⟩

/-- Example two-item PENDING order. -/
def orderTwoItems : Order := ⟨1, 2, .PENDING, 23/2, [itemRice, itemFlour]⟩

/-- Example store for the failed-approval scenario: product 1 has ample
stock, product 2 does not. -/
def dbTwoItems : Db :=
  ⟨[orderTwoItems], [(1, ⟨5000, 0⟩), (2, ⟨100, 0⟩)], []⟩

/-- Example one-item PENDING order for the approve-then-cancel round
trip. -/
def orderRice : Order := ⟨1, 2, .PENDING, 10, [itemRice]⟩

/-- Example store for the approve-then-cancel round trip. -/
def dbRice : Db := ⟨[orderRice], [(1, ⟨10000, 0⟩)], []⟩

/-- Example store holding a FULFILLED order. -/
def dbFulfilled : Db :=
  ⟨[⟨1, 2, .FULFILLED, 10, [itemRice]⟩], [(1, ⟨10000, 0⟩)], []⟩

/-- The store `dbRice` after approving its order: 2000 GRAM deducted. -/
def dbRiceApproved : Db :=
  ⟨[⟨1, 2, .APPROVED, 10, [itemRice]⟩], [(1, ⟨8000, 0⟩)],
   [⟨1, some .PENDING, .APPROVED, 9⟩]⟩

/-!  Lemmas about the inventory store primitives. -/

theorem findInv_updateInvQty (db : InventoryDb) (p : ℕ) (δ : ℚ) (pid : ℕ) :
    findInv (updateInvQty db p δ) pid =
      (findInv db pid).map fun inv =>
        if pid = p then
          { inv with quantityInBaseUom := inv.quantityInBaseUom + δ }
        else inv := by
  induction db with
  | nil => rfl
  | cons e rest ih =>
    by_cases hp : e.1 = p <;> by_cases hpid : e.1 = pid <;>
      simp_all [findInv, updateInvQty, List.find?_cons]

theorem qtyOpt_updateInvQty (db : InventoryDb) (p : ℕ) (δ : ℚ) (pid : ℕ) :
    qtyOpt (updateInvQty db p δ) pid =
      (qtyOpt db pid).map fun x => x + (if pid = p then δ else 0) := by
  unfold qtyOpt
  rw [findInv_updateInvQty]
  cases findInv db pid with
  | none => rfl
  | some inv => by_cases h : pid = p <;> simp [h]

theorem reservedOpt_updateInvQty (db : InventoryDb) (p : ℕ) (δ : ℚ) (pid : ℕ) :
    reservedOpt (updateInvQty db p δ) pid = reservedOpt db pid := by
  unfold reservedOpt
  rw [findInv_updateInvQty]
  cases findInv db pid with
  | none => rfl
  | some inv => by_cases h : pid = p <;> simp [h]

theorem isSome_findInv_updateInvQty (db : InventoryDb) (p : ℕ) (δ : ℚ) (pid : ℕ) :
    (findInv (updateInvQty db p δ) pid).isSome = (findInv db pid).isSome := by
  rw [findInv_updateInvQty]
  cases findInv db pid <;> rfl

theorem availableOf_eq (db : InventoryDb) (pid : ℕ) :
    availableOf db pid =
      ((findInv db pid).map fun inv =>
        inv.quantityInBaseUom - inv.reservedQuantity).getD 0 := by
  unfold availableOf
  cases findInv db pid <;> rfl

theorem availableOf_updateInvQty_le (db : InventoryDb) (p : ℕ) (δ : ℚ) (pid : ℕ)
    (hδ : δ ≤ 0) : availableOf (updateInvQty db p δ) pid ≤ availableOf db pid := by
  unfold availableOf
  rw [findInv_updateInvQty]
  cases findInv db pid with
  | none => simp
  | some inv =>
    by_cases h : pid = p <;> simp [h]
    linarith

theorem updateInvQty_keys (db : InventoryDb) (p : ℕ) (δ : ℚ) :
    (updateInvQty db p δ).map Prod.fst = db.map Prod.fst := by
  unfold updateInvQty
  rw [List.map_map]
  apply List.map_congr_left
  intro e _
  by_cases h : e.1 = p <;> simp [h]

theorem findInv_eq_of_mem (db : InventoryDb) (p : ℕ) (e : ℕ × Inventory)
    (hnd : keysNodup db) (he : e ∈ db) (hp : e.1 = p) :
    findInv db p = some e.2 := by
  induction db with
  | nil => cases he
  | cons hd tl ih =>
    rcases List.mem_cons.mp he with h | h
    · subst h
      simp [findInv, List.find?_cons, hp]
    · have hhd : hd.1 ≠ p := by
        intro hcontra
        have : hd.1 ∈ tl.map Prod.fst := by
          rw [hcontra, ← hp]
          exact List.mem_map_of_mem Prod.fst h
        exact (List.nodup_cons.mp hnd).1 this
      have := ih (List.nodup_cons.mp hnd).2 h
      simpa [findInv, List.find?_cons, hhd] using this

theorem findOrder_setOrderStatus (orders : List Order) (orderId : ℕ)
    (status : OrderStatus) :
    findOrder (setOrderStatus orders orderId status) orderId =
      (findOrder orders orderId).map fun o => { o with status := status } := by
  induction orders with
  | nil => rfl
  | cons o rest ih =>
    by_cases h : o.id = orderId <;>
      simp_all [findOrder, setOrderStatus, List.find?_cons]

/-!  Lemmas about `deductStockForOrder` and `restoreStockForOrder`. -/

theorem deduct_ok_qtyOpt :
    ∀ (items : List OrderItem) (db db1 : InventoryDb),
      deductStockForOrder db items = .ok db1 →
      ∀ pid, qtyOpt db1 pid = (qtyOpt db pid).map fun x => x - sumReqAt items pid := by
  intro items
  induction items with
  | nil =>
    intro db db1 h pid
    simp only [deductStockForOrder] at h
    cases h
    cases hq : qtyOpt db pid <;> simp [sumReqAt, hq]
  | cons item rest ih =>
    intro db db1 h pid
    simp only [deductStockForOrder] at h
    cases hf : findInv db item.productId with
    | none => rw [hf] at h; cases h
    | some inv =>
      rw [hf] at h
      dsimp only at h
      by_cases hc : inv.quantityInBaseUom - inv.reservedQuantity <
          item.quantityInBaseUom
      · rw [if_pos hc] at h; cases h
      · rw [if_neg hc] at h
        have hrec := ih _ _ h pid
        rw [hrec, qtyOpt_updateInvQty]
        cases hq : qtyOpt db pid with
        | none => rfl
        | some x =>
          by_cases hpp : pid = item.productId <;>
            simp [sumReqAt, hpp, eq_comm] <;> ring

theorem restore_ok_qtyOpt :
    ∀ (items : List OrderItem) (db db1 : InventoryDb),
      restoreStockForOrder db items = .ok db1 →
      ∀ pid, qtyOpt db1 pid = (qtyOpt db pid).map fun x => x + sumReqAt items pid := by
  intro items
  induction items with
  | nil =>
    intro db db1 h pid
    simp only [restoreStockForOrder] at h
    cases h
    cases hq : qtyOpt db pid <;> simp [sumReqAt, hq]
  | cons item rest ih =>
    intro db db1 h pid
    simp only [restoreStockForOrder] at h
    cases hf : findInv db item.productId with
    | none => rw [hf] at h; cases h
    | some inv =>
      rw [hf] at h
      have hrec := ih _ _ h pid
      rw [hrec, qtyOpt_updateInvQty]
      cases hq : qtyOpt db pid with
      | none => rfl
      | some x =>
        by_cases hpp : pid = item.productId <;>
          simp [sumReqAt, hpp, eq_comm] <;> ring

theorem deduct_ok_isSome :
    ∀ (items : List OrderItem) (db db1 : InventoryDb),
      deductStockForOrder db items = .ok db1 →
      ∀ pid, (findInv db1 pid).isSome = (findInv db pid).isSome := by
  intro items db db1 h pid
  have h1 := deduct_ok_qtyOpt items db db1 h pid
  have h2 : (qtyOpt db1 pid).isSome = (qtyOpt db pid).isSome := by
    rw [h1]; cases qtyOpt db pid <;> rfl
  unfold qtyOpt at h2
  cases hf : findInv db pid <;> cases hf1 : findInv db1 pid <;>
    simp_all

theorem deduct_ok_present :
    ∀ (items : List OrderItem) (db db1 : InventoryDb),
      deductStockForOrder db items = .ok db1 →
      ∀ i ∈ items, (findInv db i.productId).isSome := by
  intro items
  induction items with
  | nil => intro db db1 _ i hi; cases hi
  | cons item rest ih =>
    intro db db1 h i hi
    simp only [deductStockForOrder] at h
    cases hf : findInv db item.productId with
    | none => rw [hf] at h; cases h
    | some inv =>
      rw [hf] at h
      dsimp only at h
      by_cases hc : inv.quantityInBaseUom - inv.reservedQuantity <
          item.quantityInBaseUom
      · rw [if_pos hc] at h; cases h
      · rw [if_neg hc] at h
        rcases List.mem_cons.mp hi with hh | hh
        · subst hh; simp [hf]
        · have := ih _ _ h i hh
          rwa [isSome_findInv_updateInvQty] at this

theorem deduct_ok_requiredLe :
    ∀ (items : List OrderItem) (db db1 : InventoryDb),
      (∀ i ∈ items, 0 ≤ i.quantityInBaseUom) →
      deductStockForOrder db items = .ok db1 →
      ∀ i ∈ items, i.quantityInBaseUom ≤ availableOf db i.productId := by
  intro items
  induction items with
  | nil => intro db db1 _ _ i hi; cases hi
  | cons item rest ih =>
    intro db db1 hnn h i hi
    simp only [deductStockForOrder] at h
    cases hf : findInv db item.productId with
    | none => rw [hf] at h; cases h
    | some inv =>
      rw [hf] at h
      dsimp only at h
      by_cases hc : inv.quantityInBaseUom - inv.reservedQuantity <
          item.quantityInBaseUom
      · rw [if_pos hc] at h; cases h
      · rw [if_neg hc] at h
        rcases List.mem_cons.mp hi with hh | hh
        · subst hh
          have hav : availableOf db i.productId =
              inv.quantityInBaseUom - inv.reservedQuantity := by
            unfold availableOf
            rw [hf]
          rw [hav]
          linarith [not_lt.mp hc]
        · have hrec := ih _ _ (fun j hj => hnn j (List.mem_cons_of_mem _ hj)) h i hh
          have hmono := availableOf_updateInvQty_le db item.productId
            (-item.quantityInBaseUom) i.productId
            (by have := hnn item (List.mem_cons_self _ _); linarith)
          linarith

theorem deduct_error_shape :
    ∀ (items : List OrderItem) (db : InventoryDb) (e : AdminError),
      (∀ i ∈ items, (findInv db i.productId).isSome) →
      deductStockForOrder db items = .error e →
      ∃ p a r, e = .insufficientStock p a r := by
  intro items
  induction items with
  | nil => intro db e _ h; cases h
  | cons item rest ih =>
    intro db e hpresent h
    simp only [deductStockForOrder] at h
    cases hf : findInv db item.productId with
    | none =>
      have := hpresent item (List.mem_cons_self _ _)
      rw [hf] at this; cases this
    | some inv =>
      rw [hf] at h
      dsimp only at h
      by_cases hc : inv.quantityInBaseUom - inv.reservedQuantity <
          item.quantityInBaseUom
      · rw [if_pos hc] at h
        exact ⟨item.productId, _, _, (Except.error.inj h).symm⟩
      · rw [if_neg hc] at h
        refine ih _ e ?_ h
        intro j hj
        rw [isSome_findInv_updateInvQty]
        exact hpresent j (List.mem_cons_of_mem _ hj)

theorem deduct_insufficient_error (items : List OrderItem) (db : InventoryDb)
    (hnn : ∀ i ∈ items, 0 ≤ i.quantityInBaseUom)
    (hpresent : ∀ i ∈ items, (findInv db i.productId).isSome)
    (hbad : ∃ i ∈ items, availableOf db i.productId < i.quantityInBaseUom) :
    ∃ p a r, deductStockForOrder db items = .error (.insufficientStock p a r) := by
  cases hres : deductStockForOrder db items with
  | ok db1 =>
    exfalso
    obtain ⟨i, hi, hlt⟩ := hbad
    have := deduct_ok_requiredLe items db db1 hnn hres i hi
    linarith
  | error e =>
    obtain ⟨p, a, r, he⟩ := deduct_error_shape items db e hpresent hres
    exact ⟨p, a, r, by rw [he]⟩

theorem restore_ok_exists :
    ∀ (items : List OrderItem) (db : InventoryDb),
      (∀ i ∈ items, (findInv db i.productId).isSome) →
      ∃ db1, restoreStockForOrder db items = .ok db1 := by
  intro items
  induction items with
  | nil => intro db _; exact ⟨db, rfl⟩
  | cons item rest ih =>
    intro db hpresent
    have hhd := hpresent item (List.mem_cons_self _ _)
    cases hf : findInv db item.productId with
    | none => rw [hf] at hhd; cases hhd
    | some inv =>
      obtain ⟨db1, hdb1⟩ := ih
        (updateInvQty db item.productId item.quantityInBaseUom)
        (fun j hj => by
          rw [isSome_findInv_updateInvQty]
          exact hpresent j (List.mem_cons_of_mem _ hj))
      exact ⟨db1, by simp only [restoreStockForOrder, hf]; exact hdb1⟩

/-!  Lemmas and claim theorems for the status machine. -/

theorem updateOrderStatus_approve_ok (db : Db) (orderId adminId : ℕ)
    (db1 : Db) (order : Order)
    (hfind : findOrder db.orders orderId = some order)
    (hstatus : order.status = .PENDING)
    (h : updateOrderStatus db orderId .APPROVED adminId = .ok db1) :
    ∃ inv, deductStockForOrder db.inventories order.items = .ok inv ∧
      db1 = { orders := setOrderStatus db.orders orderId .APPROVED,
              inventories := inv,
              statusHistory := db.statusHistory ++
                [⟨orderId, some .PENDING, .APPROVED, adminId⟩] } := by
  unfold updateOrderStatus at h
  rw [hfind] at h
  dsimp only at h
  rw [hstatus] at h
  norm_num [validateStatusTransition, validTransitions] at h
  cases hd : deductStockForOrder db.inventories order.items with
  | error e => rw [hd] at h; cases h
  | ok inv =>
    rw [hd] at h
    dsimp only at h
    exact ⟨inv, rfl, (Except.ok.inj h).symm⟩

/-- Claim C1: a PENDING order with at least two line items whose stock
check fails on any item is not approved at all: the call reports the
insufficient-stock error, the transaction rolls back, every product's
stored quantity is untouched (items processed before the failing one
included) and the order stays PENDING. -/
theorem approval_insufficient_stock_atomic
    (db : Db) (orderId adminId : ℕ) (order : Order)
    (hfind : findOrder db.orders orderId = some order)
    (hstatus : order.status = .PENDING)
    (hitems : 2 ≤ order.items.length)
    (hnn : ∀ i ∈ order.items, 0 ≤ i.quantityInBaseUom)
    (hpresent : ∀ i ∈ order.items, (findInv db.inventories i.productId).isSome)
    (hbad : ∃ i ∈ order.items,
      availableOf db.inventories i.productId < i.quantityInBaseUom) :
    (∃ p a r, updateOrderStatus db orderId .APPROVED adminId =
        .error (.insufficientStock p a r)) ∧
    applyUpdateOrderStatus db orderId .APPROVED adminId = db ∧
    (∀ pid, qtyOpt (applyUpdateOrderStatus db orderId .APPROVED adminId).inventories pid
        = qtyOpt db.inventories pid) ∧
    (findOrder (applyUpdateOrderStatus db orderId .APPROVED adminId).orders orderId).map
        Order.status = some .PENDING := by
  obtain ⟨p, a, r, herr⟩ :=
    deduct_insufficient_error order.items db.inventories hnn hpresent hbad
  have hmain : updateOrderStatus db orderId .APPROVED adminId =
      .error (.insufficientStock p a r) := by
    unfold updateOrderStatus
    rw [hfind]
    dsimp only
    rw [hstatus]
    norm_num [validateStatusTransition, validTransitions]
    rw [herr]
  have happly : applyUpdateOrderStatus db orderId .APPROVED adminId = db := by
    unfold applyUpdateOrderStatus
    rw [hmain]
  refine ⟨⟨p, a, r, hmain⟩, happly, ?_, ?_⟩
  · intro pid; rw [happly]
  · rw [happly, hfind]
    simp [hstatus]

/-- Claim C2: a requested transition outside the four legal pairs is
rejected with the invalid-transition error before the transaction starts:
the store is unchanged, covering PENDING→FULFILLED, every transition out
of FULFILLED or CANCELLED, and a repeat of a terminal status the order is
already in. -/
theorem invalid_transition_rejected
    (db : Db) (orderId adminId : ℕ) (order : Order) (target : OrderStatus)
    (hfind : findOrder db.orders orderId = some order)
    (hnotin : (order.status, target) ∉
      [(OrderStatus.PENDING, OrderStatus.APPROVED),
       (OrderStatus.PENDING, OrderStatus.CANCELLED),
       (OrderStatus.APPROVED, OrderStatus.FULFILLED),
       (OrderStatus.APPROVED, OrderStatus.CANCELLED)]) :
    updateOrderStatus db orderId target adminId =
      .error (.invalidTransition order.status target) ∧
    applyUpdateOrderStatus db orderId target adminId = db := by
  have hval : validateStatusTransition order.status target = false := by
    revert hnotin
    cases order.status <;> cases target <;> decide
  have hmain : updateOrderStatus db orderId target adminId =
      .error (.invalidTransition order.status target) := by
    unfold updateOrderStatus
    rw [hfind]
    dsimp only
    rw [hval]
    rfl
  exact ⟨hmain, by unfold applyUpdateOrderStatus; rw [hmain]⟩

/-- Claim C3: approving a PENDING order and then cancelling the approved
order leaves every product's stored quantity exactly where it started:
the deduction and the restoration use the same per-item quantities and
cancel out. -/
theorem approve_then_cancel_restores_stock
    (db db1 : Db) (orderId adminId adminId2 : ℕ) (order : Order)
    (hfind : findOrder db.orders orderId = some order)
    (hstatus : order.status = .PENDING)
    (happrove : updateOrderStatus db orderId .APPROVED adminId = .ok db1) :
    ∃ db2, updateOrderStatus db1 orderId .CANCELLED adminId2 = .ok db2 ∧
      ∀ pid, qtyOpt db2.inventories pid = qtyOpt db.inventories pid := by
  obtain ⟨inv, hded, hdb1⟩ :=
    updateOrderStatus_approve_ok db orderId adminId db1 order hfind hstatus happrove
  subst hdb1
  have hfind2 : findOrder (setOrderStatus db.orders orderId .APPROVED) orderId =
      some { order with status := .APPROVED } := by
    rw [findOrder_setOrderStatus, hfind]
    rfl
  have hpresent1 : ∀ i ∈ order.items, (findInv inv i.productId).isSome := by
    intro i hi
    rw [deduct_ok_isSome order.items db.inventories inv hded]
    exact deduct_ok_present order.items db.inventories inv hded i hi
  obtain ⟨inv2, hres⟩ := restore_ok_exists order.items inv hpresent1
  refine ⟨{ orders := setOrderStatus (setOrderStatus db.orders orderId .APPROVED)
              orderId .CANCELLED,
            inventories := inv2,
            statusHistory := (db.statusHistory ++
              [⟨orderId, some .PENDING, .APPROVED, adminId⟩]) ++
              [⟨orderId, some .APPROVED, .CANCELLED, adminId2⟩] }, ?_, ?_⟩
  · unfold updateOrderStatus
    dsimp only
    rw [hfind2]
    dsimp only
    have hv : validateStatusTransition OrderStatus.APPROVED
        OrderStatus.CANCELLED = true := rfl
    rw [hv, if_pos rfl, if_neg (by simp), if_pos ⟨rfl, rfl⟩, hres]
  · intro pid
    rw [restore_ok_qtyOpt order.items inv inv2 hres pid,
      deduct_ok_qtyOpt order.items db.inventories inv hded pid]
    cases qtyOpt db.inventories pid <;> simp

/-- Witness for C1: a two-item order over products 1 (sufficient stock)
and 2 (insufficient stock) fails approval with the insufficient-stock
error and changes nothing. -/
theorem approval_insufficient_stock_atomic_witness :
    (findOrder dbTwoItems.orders 1 = some orderTwoItems ∧
     orderTwoItems.status = .PENDING ∧
     2 ≤ orderTwoItems.items.length ∧
     (∀ i ∈ orderTwoItems.items, 0 ≤ i.quantityInBaseUom) ∧
     (∀ i ∈ orderTwoItems.items,
       (findInv dbTwoItems.inventories i.productId).isSome) ∧
     (∃ i ∈ orderTwoItems.items,
       availableOf dbTwoItems.inventories i.productId < i.quantityInBaseUom)) ∧
    ((∃ p a r, updateOrderStatus dbTwoItems 1 .APPROVED 9 =
        .error (.insufficientStock p a r)) ∧
     applyUpdateOrderStatus dbTwoItems 1 .APPROVED 9 = dbTwoItems ∧
     (∀ pid, qtyOpt (applyUpdateOrderStatus dbTwoItems 1 .APPROVED 9).inventories pid
        = qtyOpt dbTwoItems.inventories pid) ∧
     (findOrder (applyUpdateOrderStatus dbTwoItems 1 .APPROVED 9).orders 1).map
        Order.status = some .PENDING) := by
  have h1 : findOrder dbTwoItems.orders 1 = some orderTwoItems := rfl
  have h2 : orderTwoItems.status = .PENDING := rfl
  have h3 : 2 ≤ orderTwoItems.items.length := by
    norm_num [orderTwoItems]
  have h4 : ∀ i ∈ orderTwoItems.items, 0 ≤ i.quantityInBaseUom := by
    intro i hi
    fin_cases hi <;> norm_num [itemRice, itemFlour]
  have h5 : ∀ i ∈ orderTwoItems.items,
      (findInv dbTwoItems.inventories i.productId).isSome := by
    intro i hi
    fin_cases hi <;> rfl
  have hf2 : findInv dbTwoItems.inventories 2 = some ⟨100, 0⟩ := rfl
  have h6 : ∃ i ∈ orderTwoItems.items,
      availableOf dbTwoItems.inventories i.productId < i.quantityInBaseUom := by
    refine ⟨itemFlour, by simp [orderTwoItems], ?_⟩
    have hav : availableOf dbTwoItems.inventories itemFlour.productId = 100 := by
      unfold availableOf
      rw [show itemFlour.productId = 2 from rfl, hf2]
      norm_num
    rw [hav]
    norm_num [itemFlour]
  exact ⟨⟨h1, h2, h3, h4, h5, h6⟩,
    approval_insufficient_stock_atomic dbTwoItems 1 9 orderTwoItems h1 h2 h3 h4 h5 h6⟩

/-- Witness for C2: asking to move a FULFILLED order back to PENDING is
rejected with the invalid-transition error and changes nothing. -/
theorem invalid_transition_rejected_witness :
    (findOrder dbFulfilled.orders 1 = some ⟨1, 2, .FULFILLED, 10, [itemRice]⟩ ∧
     ((OrderStatus.FULFILLED, OrderStatus.PENDING) ∉
       [(OrderStatus.PENDING, OrderStatus.APPROVED),
        (OrderStatus.PENDING, OrderStatus.CANCELLED),
        (OrderStatus.APPROVED, OrderStatus.FULFILLED),
        (OrderStatus.APPROVED, OrderStatus.CANCELLED)])) ∧
    (updateOrderStatus dbFulfilled 1 .PENDING 9 =
      .error (.invalidTransition .FULFILLED .PENDING) ∧
     applyUpdateOrderStatus dbFulfilled 1 .PENDING 9 = dbFulfilled) := by
  have h1 : findOrder dbFulfilled.orders 1 =
      some ⟨1, 2, .FULFILLED, 10, [itemRice]⟩ := rfl
  have h2 : (OrderStatus.FULFILLED, OrderStatus.PENDING) ∉
      [(OrderStatus.PENDING, OrderStatus.APPROVED),
       (OrderStatus.PENDING, OrderStatus.CANCELLED),
       (OrderStatus.APPROVED, OrderStatus.FULFILLED),
       (OrderStatus.APPROVED, OrderStatus.CANCELLED)] := by decide
  exact ⟨⟨h1, h2⟩, invalid_transition_rejected dbFulfilled 1 9 _ .PENDING h1 h2⟩

/-- Witness for C3: product 1 holds 10000 GRAM; approving the 2000-GRAM
order and cancelling the approved order brings the stored quantity back
to 10000. -/
theorem approve_then_cancel_restores_stock_witness :
    (findOrder dbRice.orders 1 = some orderRice ∧
     orderRice.status = .PENDING ∧
     updateOrderStatus dbRice 1 .APPROVED 9 = .ok dbRiceApproved) ∧
    (∃ db2, updateOrderStatus dbRiceApproved 1 .CANCELLED 9 = .ok db2 ∧
      ∀ pid, qtyOpt db2.inventories pid = qtyOpt dbRice.inventories pid) := by
  have h1 : findOrder dbRice.orders 1 = some orderRice := rfl
  have h2 : orderRice.status = .PENDING := rfl
  have h3 : updateOrderStatus dbRice 1 .APPROVED 9 = .ok dbRiceApproved := by
    norm_num [updateOrderStatus, findOrder, dbRice, dbRiceApproved, orderRice,
      itemRice, validateStatusTransition, validTransitions, setOrderStatus,
      deductStockForOrder, findInv, updateInvQty]
  exact ⟨⟨h1, h2, h3⟩,
    approve_then_cancel_restores_stock dbRice dbRiceApproved 1 9 9 orderRice h1 h2 h3⟩

/-!  Invariant preservation for the ledger operations (claim C4). -/

theorem keysNodup_updateInvQty (db : InventoryDb) (p : ℕ) (δ : ℚ)
    (hnd : keysNodup db) : keysNodup (updateInvQty db p δ) := by
  unfold keysNodup
  rw [updateInvQty_keys]
  exact hnd

theorem invariantHolds_updateInvQty_deduct (db : InventoryDb) (p : ℕ) (req : ℚ)
    (inv : Inventory)
    (hnd : keysNodup db) (hinv : invariantHolds db)
    (hf : findInv db p = some inv)
    (hc : req ≤ inv.quantityInBaseUom - inv.reservedQuantity) :
    invariantHolds (updateInvQty db p (-req)) := by
  intro e1 he1
  obtain ⟨e, he, rfl⟩ := List.mem_map.mp he1
  by_cases hp : e.1 = p
  · have hfind := findInv_eq_of_mem db p e hnd he hp
    rw [hf] at hfind
    have he2 : e.2 = inv := (Option.some.inj hfind).symm
    obtain ⟨hr0, hrq⟩ := hinv e he
    simp only [hp, if_true]
    refine ⟨hr0, ?_⟩
    show e.2.reservedQuantity ≤ e.2.quantityInBaseUom + -req
    rw [he2]
    linarith
  · simp only [hp, if_false]
    exact hinv e he

theorem invariantHolds_updateInvQty_restore (db : InventoryDb) (p : ℕ) (q : ℚ)
    (hq : 0 ≤ q) (hinv : invariantHolds db) :
    invariantHolds (updateInvQty db p q) := by
  intro e1 he1
  obtain ⟨e, he, rfl⟩ := List.mem_map.mp he1
  obtain ⟨hr0, hrq⟩ := hinv e he
  by_cases hp : e.1 = p
  · simp only [hp, if_true]
    refine ⟨hr0, ?_⟩
    show e.2.reservedQuantity ≤ e.2.quantityInBaseUom + q
    linarith
  · simp only [hp, if_false]
    exact ⟨hr0, hrq⟩

theorem deduct_ok_preserves :
    ∀ (items : List OrderItem) (db db1 : InventoryDb),
      keysNodup db → invariantHolds db →
      deductStockForOrder db items = .ok db1 →
      keysNodup db1 ∧ invariantHolds db1 := by
  intro items
  induction items with
  | nil =>
    intro db db1 hnd hinv h
    simp only [deductStockForOrder] at h
    cases h
    exact ⟨hnd, hinv⟩
  | cons item rest ih =>
    intro db db1 hnd hinv h
    simp only [deductStockForOrder] at h
    cases hf : findInv db item.productId with
    | none => rw [hf] at h; cases h
    | some inv =>
      rw [hf] at h
      dsimp only at h
      by_cases hc : inv.quantityInBaseUom - inv.reservedQuantity <
          item.quantityInBaseUom
      · rw [if_pos hc] at h; cases h
      · rw [if_neg hc] at h
        exact ih _ _ (keysNodup_updateInvQty db _ _ hnd)
          (invariantHolds_updateInvQty_deduct db item.productId
            item.quantityInBaseUom inv hnd hinv hf (not_lt.mp hc)) h

theorem restore_ok_preserves :
    ∀ (items : List OrderItem) (db db1 : InventoryDb),
      (∀ i ∈ items, 0 ≤ i.quantityInBaseUom) →
      keysNodup db → invariantHolds db →
      restoreStockForOrder db items = .ok db1 →
      keysNodup db1 ∧ invariantHolds db1 := by
  intro items
  induction items with
  | nil =>
    intro db db1 _ hnd hinv h
    simp only [restoreStockForOrder] at h
    cases h
    exact ⟨hnd, hinv⟩
  | cons item rest ih =>
    intro db db1 hnn hnd hinv h
    simp only [restoreStockForOrder] at h
    cases hf : findInv db item.productId with
    | none => rw [hf] at h; cases h
    | some inv =>
      rw [hf] at h
      exact ih _ _ (fun j hj => hnn j (List.mem_cons_of_mem _ hj))
        (keysNodup_updateInvQty db _ _ hnd)
        (invariantHolds_updateInvQty_restore db item.productId
          item.quantityInBaseUom (hnn item (List.mem_cons_self _ _)) hinv) h

theorem applyLedgerOp_preserves (db : InventoryDb) (op : LedgerOp)
    (hnn : ∀ i ∈ opItems op, 0 ≤ i.quantityInBaseUom)
    (hnd : keysNodup db) (hinv : invariantHolds db) :
    keysNodup (applyLedgerOp db op) ∧ invariantHolds (applyLedgerOp db op) := by
  unfold applyLedgerOp
  cases hr : runLedgerOp db op with
  | error e => exact ⟨hnd, hinv⟩
  | ok db1 =>
    cases op with
    | deduct items =>
      exact deduct_ok_preserves items db db1 hnd hinv hr
    | restore items =>
      exact restore_ok_preserves items db db1 hnn hnd hinv hr

/-- Claim C4: starting from an inventory store whose rows all satisfy
`0 ≤ reservedQuantity ≤ quantityInBaseUom`, any sequence of the ledger's
deduct (order approval) and restore (approved-order cancellation)
operations preserves `reservedQuantity ≤ quantityInBaseUom` and
`0 ≤ quantityInBaseUom` for every row: no deduction drives stock
negative. -/
theorem ledger_ops_preserve_invariant (db : InventoryDb) (ops : List LedgerOp)
    (hnd : keysNodup db) (hinv : invariantHolds db)
    (hnn : ∀ op ∈ ops, ∀ i ∈ opItems op, 0 ≤ i.quantityInBaseUom) :
    invariantHolds (applyLedgerOps db ops) ∧
    ∀ e ∈ applyLedgerOps db ops,
      0 ≤ e.2.quantityInBaseUom ∧
      e.2.reservedQuantity ≤ e.2.quantityInBaseUom := by
  have main : ∀ (ops : List LedgerOp) (db : InventoryDb),
      keysNodup db → invariantHolds db →
      (∀ op ∈ ops, ∀ i ∈ opItems op, 0 ≤ i.quantityInBaseUom) →
      keysNodup (applyLedgerOps db ops) ∧ invariantHolds (applyLedgerOps db ops) := by
    intro ops
    induction ops with
    | nil => intro db hnd hinv _; exact ⟨hnd, hinv⟩
    | cons op rest ih =>
      intro db hnd hinv hnn
      obtain ⟨hnd1, hinv1⟩ := applyLedgerOp_preserves db op
        (hnn op (List.mem_cons_self _ _)) hnd hinv
      exact ih _ hnd1 hinv1 (fun o ho => hnn o (List.mem_cons_of_mem _ ho))
  obtain ⟨_, hinv1⟩ := main ops db hnd hinv hnn
  refine ⟨hinv1, fun e he => ?_⟩
  obtain ⟨hr0, hrq⟩ := hinv1 e he
  exact ⟨le_trans hr0 hrq, hrq⟩

/-- Witness for C4: deducting and then restoring 2000 GRAM against a row
holding 10000 with 500 reserved keeps the invariant at every step. -/
theorem ledger_ops_preserve_invariant_witness :
    (keysNodup [(1, (⟨10000, 500⟩ : Inventory))] ∧
     invariantHolds [(1, (⟨10000, 500⟩ : Inventory))] ∧
     (∀ op ∈ [LedgerOp.deduct [itemRice], LedgerOp.restore [itemRice]],
       ∀ i ∈ opItems op, 0 ≤ i.quantityInBaseUom)) ∧
    (invariantHolds (applyLedgerOps [(1, (⟨10000, 500⟩ : Inventory))]
        [LedgerOp.deduct [itemRice], LedgerOp.restore [itemRice]]) ∧
     ∀ e ∈ applyLedgerOps [(1, (⟨10000, 500⟩ : Inventory))]
        [LedgerOp.deduct [itemRice], LedgerOp.restore [itemRice]],
       0 ≤ e.2.quantityInBaseUom ∧
       e.2.reservedQuantity ≤ e.2.quantityInBaseUom) := by
  have h1 : keysNodup [(1, (⟨10000, 500⟩ : Inventory))] := by
    norm_num [keysNodup]
  have h2 : invariantHolds [(1, (⟨10000, 500⟩ : Inventory))] := by
    intro e he
    rw [List.mem_singleton] at he
    subst he
    norm_num
  have h3 : ∀ op ∈ [LedgerOp.deduct [itemRice], LedgerOp.restore [itemRice]],
      ∀ i ∈ opItems op, 0 ≤ i.quantityInBaseUom := by
    intro op hop i hi
    rcases List.mem_cons.mp hop with rfl | hop1
    · simp only [opItems, List.mem_singleton] at hi
      subst hi
      norm_num [itemRice]
    · rcases List.mem_cons.mp hop1 with rfl | hop2
      · simp only [opItems, List.mem_singleton] at hi
        subst hi
        norm_num [itemRice]
      · cases hop2
  exact ⟨⟨h1, h2, h3⟩,
    ledger_ops_preserve_invariant [(1, (⟨10000, 500⟩ : Inventory))] _ h1 h2 h3⟩

/-!  Binary64 rounding lemmas (claim C5). -/

theorem log2Fuel_spec :
    ∀ (fuel n : ℕ), 0 < n → n ≤ fuel →
      2 ^ log2Fuel fuel n ≤ n ∧ n < 2 ^ (log2Fuel fuel n + 1) := by
  intro fuel
  induction fuel with
  | zero => intro n h1 h2; omega
  | succ fuel ih =>
    intro n h1 h2
    by_cases hn : n ≤ 1
    · have hn1 : n = 1 := by omega
      subst hn1
      simp [log2Fuel]
    · have h2d : n / 2 ≤ fuel := by omega
      have h1d : 0 < n / 2 := by omega
      obtain ⟨ha, hb⟩ := ih (n / 2) h1d h2d
      simp only [log2Fuel, if_neg hn]
      constructor
      · rw [pow_succ]
        omega
      · rw [pow_succ]
        omega

theorem floorLog2_spec (n : ℕ) (h : 0 < n) :
    2 ^ floorLog2 n ≤ n ∧ n < 2 ^ (floorLog2 n + 1) :=
  log2Fuel_spec n n h le_rfl

theorem mhe_intCast (z : ℤ) : mhe (z : ℚ) = z := by
  unfold mhe
  rw [Int.floor_intCast]
  norm_num

theorem roundPos_natCast (m : ℕ) (h1 : 0 < m) (h2 : m < 2 ^ 53) :
    roundPos (m : ℚ) = m := by
  have hnum : ((m : ℚ)).num = (m : ℤ) := Rat.num_natCast m
  have hden : ((m : ℚ)).den = 1 := Rat.den_natCast m
  obtain ⟨hlo, hhi⟩ := floorLog2_spec m h1
  set L := floorLog2 m with hL
  have hL52 : L ≤ 52 := by
    by_contra hcon
    push_neg at hcon
    have : (2 : ℕ) ^ 53 ≤ 2 ^ L := Nat.pow_le_pow_right (by norm_num) (by omega)
    omega
  set k : ℕ := 52 - L with hk
  have hbe : binadeExp (m : ℚ) = ((k : ℕ) : ℤ) := by
    unfold binadeExp
    rw [hnum, hden]
    rw [Int.natAbs_ofNat]
    have hd1 : floorLog2 1 = 0 := by decide
    rw [hd1, ← hL]
    push_cast [hk]
    omega
  have hzpow : (2 : ℚ) ^ ((k : ℕ) : ℤ) = ((2 ^ k : ℕ) : ℚ) := by
    rw [zpow_natCast]
    push_cast
    ring
  have hscaled : (m : ℚ) * (2 : ℚ) ^ ((k : ℕ) : ℤ) = ((m * 2 ^ k : ℕ) : ℚ) := by
    rw [hzpow]
    push_cast
    ring
  have hfloor : ⌊(m : ℚ) * (2 : ℚ) ^ ((k : ℕ) : ℤ)⌋ = ((m * 2 ^ k : ℕ) : ℤ) := by
    rw [hscaled]
    exact Int.floor_natCast _
  have hlow : (2 : ℕ) ^ 52 ≤ m * 2 ^ k := by
    calc (2 : ℕ) ^ 52 = 2 ^ L * 2 ^ k := by
          rw [← pow_add]
          congr 1
          omega
    _ ≤ m * 2 ^ k := Nat.mul_le_mul_right _ hlo
  have hhigh : m * 2 ^ k < 2 ^ 53 := by
    calc m * 2 ^ k < 2 ^ (L + 1) * 2 ^ k := by
          exact Nat.mul_lt_mul_of_lt_of_le hhi le_rfl (Nat.pos_pow_of_pos k (by norm_num))
    _ = 2 ^ 53 := by
          rw [← pow_add]
          congr 1
          omega
  have hpe : pickExp (m : ℚ) = ((k : ℕ) : ℤ) := by
    unfold pickExp
    rw [hbe]
    rw [hfloor]
    rw [if_pos]
    constructor
    · exact_mod_cast hlow
    · exact_mod_cast hhigh
  have hmhe : mhe ((m : ℚ) * (2 : ℚ) ^ ((k : ℕ) : ℤ)) = ((m * 2 ^ k : ℕ) : ℤ) := by
    rw [hscaled]
    have := mhe_intCast ((m * 2 ^ k : ℕ) : ℤ)
    simpa using this
  unfold roundPos
  rw [hpe, hmhe]
  rw [zpow_neg, hzpow]
  push_cast
  have hne : ((2 ^ k : ℕ) : ℚ) ≠ 0 := by positivity
  field_simp

theorem round53_natCast (m : ℕ) (h2 : m < 2 ^ 53) : round53 (m : ℚ) = m := by
  rcases Nat.eq_zero_or_pos m with rfl | h1
  · simp [round53]
  · have hne0 : ((m : ℚ)) ≠ 0 := Nat.cast_ne_zero.mpr h1.ne'
    have hnlt : ¬((m : ℚ) < 0) := by
      push_neg
      exact Nat.cast_nonneg m
    unfold round53
    rw [if_neg hne0, if_neg hnlt]
    exact roundPos_natCast m h1 h2

theorem round53_centi :
    round53 (1 / 100 : ℚ) = 5764607523034235 / 576460752303423488 := by
  have hne : (1 / 100 : ℚ) ≠ 0 := by norm_num
  have hnlt : ¬((1 / 100 : ℚ) < 0) := by norm_num
  unfold round53
  rw [if_neg hne, if_neg hnlt]
  have hpe : pickExp (1 / 100 : ℚ) = 59 := by
    have hbe : binadeExp (1 / 100 : ℚ) = 58 := by
      have hnum : (1 / 100 : ℚ).num = 1 := by norm_num
      have hden : (1 / 100 : ℚ).den = 100 := by norm_num
      have hd1 : floorLog2 1 = 0 := by decide
      have hd2 : floorLog2 100 = 6 := by decide
      unfold binadeExp
      rw [hnum, hden]
      norm_num [hd1, hd2]
    unfold pickExp
    rw [hbe]
    norm_num [Int.floor_eq_iff]
  have hm : mhe ((1 / 100 : ℚ) * (2 : ℚ) ^ (59 : ℤ)) = 5764607523034235 := by
    unfold mhe
    norm_num [Int.floor_eq_iff]
  unfold roundPos
  rw [hpe, hm]
  norm_num [zpow_neg]

theorem round53_fixed_centi :
    round53 ((5764607523034235 : ℚ) / 576460752303423488) =
      (5764607523034235 : ℚ) / 576460752303423488 := by
  have hne : ((5764607523034235 : ℚ) / 576460752303423488) ≠ 0 := by norm_num
  have hnlt : ¬(((5764607523034235 : ℚ) / 576460752303423488) < 0) := by norm_num
  unfold round53
  rw [if_neg hne, if_neg hnlt]
  have hpe : pickExp ((5764607523034235 : ℚ) / 576460752303423488) = 59 := by
    have hbe : binadeExp ((5764607523034235 : ℚ) / 576460752303423488) = 59 := by
      have hnum : ((5764607523034235 : ℚ) / 576460752303423488).num =
          5764607523034235 := by norm_num
      have hden : ((5764607523034235 : ℚ) / 576460752303423488).den =
          576460752303423488 := by norm_num
      have hd1 : floorLog2 5764607523034235 = 52 := by decide
      have hd2 : floorLog2 576460752303423488 = 59 := by decide
      unfold binadeExp
      rw [hnum, hden]
      norm_num [hd1, hd2]
    unfold pickExp
    rw [hbe]
    norm_num [Int.floor_eq_iff]
  have harith : ((5764607523034235 : ℚ) / 576460752303423488) *
      (2 : ℚ) ^ (59 : ℤ) = ((5764607523034235 : ℤ) : ℚ) := by
    norm_num
  have hm : mhe (((5764607523034235 : ℚ) / 576460752303423488) *
      (2 : ℚ) ^ (59 : ℤ)) = 5764607523034235 := by
    rw [harith, mhe_intCast]
  unfold roundPos
  rw [hpe, hm]
  norm_num [zpow_neg]

/-- Claim C5 (amended): conversion multiplies in IEEE-754 binary64, so it
is exact whenever the true product is representable — here, integer
kilogram quantities up to 2^43 convert to grams with factor 1000
exactly — but not in general (see the drift counterexample for factor
0.01). -/
theorem convertToBaseUomFP_exact_integer_kg (n : ℕ) (h1 : 0 < n)
    (h2 : n ≤ 2 ^ 43) :
    convertToBaseUomFP (n : ℚ) .KILOGRAM .GRAM = some ((n : ℚ) * 1000) := by
  have hrule : findRule .KILOGRAM .GRAM = some ⟨.KILOGRAM, .GRAM, 1000⟩ := rfl
  unfold convertToBaseUomFP
  rw [hrule]
  simp only [Option.map_some']
  congr 1
  have hf1000 : round53 (1000 : ℚ) = 1000 := by
    have := round53_natCast 1000 (by norm_num)
    simpa using this
  rw [hf1000]
  have hcast : (n : ℚ) * 1000 = ((n * 1000 : ℕ) : ℚ) := by
    push_cast
    ring
  rw [hcast]
  exact round53_natCast (n * 1000) (by
    calc n * 1000 ≤ 2 ^ 43 * 1000 := Nat.mul_le_mul_right _ h2
    _ < 2 ^ 53 := by norm_num)

/-- Witness for the amended C5: 2 KILOGRAM converts to exactly 2000
GRAM in the binary64 model. -/
theorem convertToBaseUomFP_exact_integer_kg_witness :
    0 < 2 ∧ 2 ≤ 2 ^ 43 ∧
    convertToBaseUomFP ((2 : ℕ) : ℚ) .KILOGRAM .GRAM =
      some (((2 : ℕ) : ℚ) * 1000) :=
  ⟨by norm_num, by norm_num,
    convertToBaseUomFP_exact_integer_kg 2 (by norm_num) (by norm_num)⟩

/-- Counterexample for C5 as stated: converting 1 CENTIMETER to METER in
the binary64 arithmetic the source actually uses does not give the exact
product 1 × 0.01 = 1/100 — the factor 0.01 is not representable in
binary64, so the call returns 5764607523034235/2^59 instead. -/
theorem convertToBaseUomFP_centimeter_drift :
    convertToBaseUomFP 1 .CENTIMETER .METER ≠ some ((1 : ℚ) * (1 / 100)) := by
  have hrule : findRule .CENTIMETER .METER = some ⟨.CENTIMETER, .METER, 1/100⟩ := rfl
  unfold convertToBaseUomFP
  rw [hrule]
  simp only [Option.map_some']
  intro hcontra
  have heq := Option.some.inj hcontra
  rw [round53_centi, one_mul, round53_fixed_centi] at heq
  norm_num at heq

/-- Claim C6 evaluated at a failing input: adjusting stock by −200 GRAM
on a product holding 100 GRAM makes `updateStock` throw the
insufficient-stock conflict, but because the source increments the row
BEFORE the negative check and outside any transaction, the store keeps
the negative quantity −100 instead of the claimed unchanged 100. -/
theorem updateStock_negative_persists :
    (updateStock [⟨1, 7, .GRAM, 1/200, true⟩] [(1, ⟨100, 0⟩)] 1 (-200) .GRAM 7
        .SUPPLIER).2 = .error .insufficientStock ∧
    qtyOpt (updateStock [⟨1, 7, .GRAM, 1/200, true⟩] [(1, ⟨100, 0⟩)] 1 (-200)
        .GRAM 7 .SUPPLIER).1 1 = some (-100) ∧
    (updateStock [⟨1, 7, .GRAM, 1/200, true⟩] [(1, ⟨100, 0⟩)] 1 (-200) .GRAM 7
        .SUPPLIER).1 ≠ [(1, ⟨100, 0⟩)] := by
  norm_num [updateStock, findInv, updateInvQty, qtyOpt, isCompatible,
    conversionRules, convertToBaseUom, findRule]

/-- Counterexample for C9: the conversion table has no unit-to-itself
factor-1 entry for TON, CENTIMETER or KILOMETER. -/
theorem selfRule_missing_for_ton_cm_km :
    hasSelfRule .TON = false ∧ hasSelfRule .CENTIMETER = false ∧
    hasSelfRule .KILOMETER = false := by
  norm_num [hasSelfRule, conversionRules]
  decide

/-- Claim C9 (amended): the table's no-op self entries cover exactly
GRAM, KILOGRAM, MILLILITER, LITER, METER and PIECE — TON, CENTIMETER and
KILOMETER have none. -/
theorem selfRule_exactly_for_six_units (u : Uom) :
    hasSelfRule u = true ↔
      u ∈ [Uom.GRAM, Uom.KILOGRAM, Uom.MILLILITER, Uom.LITER, Uom.METER,
           Uom.PIECE] := by
  cases u <;> norm_num [hasSelfRule, conversionRules] <;> decide

/-- Claim C10: when a product has no inventory row,
`checkStockAvailability` reports `available: false, availableQuantity: 0`
with the `totalStock` and `reservedQuantity` fields absent, rather than
raising an error. -/
theorem checkStock_no_inventory (invs : InventoryDb) (productId : ℕ)
    (required : ℚ) (h : findInv invs productId = none) :
    checkStockAvailability invs productId required =
      { available := false, availableQuantity := 0,
        totalStock := none, reservedQuantity := none } := by
  unfold checkStockAvailability
  rw [h]

/-- Witness for C10: an empty inventory table has no row for product 5. -/
theorem checkStock_no_inventory_witness :
    findInv [] 5 = none ∧
    checkStockAvailability [] 5 7 =
      { available := false, availableQuantity := 0,
        totalStock := none, reservedQuantity := none } :=
  ⟨rfl, checkStock_no_inventory [] 5 7 rfl⟩

/-!  Order creation pricing (claim C8). -/

theorem processItems_spec :
    ∀ (itemsIn : List CreateItemInput) (products : List Product)
      (invs : InventoryDb) (out : List OrderItem × ℚ),
      processItems products invs itemsIn = .ok out →
      out.2 = (out.1.map OrderItem.lineTotal).sum ∧
      ∀ it ∈ out.1,
        it.lineTotal = it.quantityInBaseUom * it.unitPriceInBaseUom ∧
        ∃ p ∈ products, p.id = it.productId ∧
          it.unitPriceInBaseUom = p.pricePerBaseUom := by
  intro itemsIn
  induction itemsIn with
  | nil =>
    intro products invs out h
    simp only [processItems] at h
    cases h
    exact ⟨by simp, by simp⟩
  | cons item rest ih =>
    intro products invs out h
    simp only [processItems] at h
    cases hfp : products.find? fun p => decide (p.id = item.productId) with
    | none => rw [hfp] at h; cases h
    | some product =>
      rw [hfp] at h
      dsimp only at h
      cases hcompat : isCompatible item.requestedUom product.baseUom with
      | false => rw [hcompat] at h; cases h
      | true =>
        rw [hcompat] at h
        simp only [Bool.not_true, if_false] at h
        cases hconv : convertToBaseUom item.quantityRequested item.requestedUom
            product.baseUom with
        | none => rw [hconv] at h; cases h
        | some q =>
          rw [hconv] at h
          dsimp only at h
          by_cases hstock : ((qtyOpt invs item.productId).getD 0 -
              (reservedOpt invs item.productId).getD 0) < q
          · rw [if_pos hstock] at h; cases h
          · rw [if_neg hstock] at h
            cases hrec : processItems products invs rest with
            | error e => rw [hrec] at h; cases h
            | ok rec1 =>
              rw [hrec] at h
              dsimp only at h
              obtain ⟨ihsum, ihitems⟩ := ih products invs rec1 hrec
              cases h
              constructor
              · dsimp only
                rw [ihsum]
                simp
              · intro it hit
                rcases List.mem_cons.mp hit with rfl | hit2
                · refine ⟨rfl, product, List.mem_of_find?_eq_some hfp, ?_, rfl⟩
                  have := List.find?_some hfp
                  exact of_decide_eq_true this
                · exact ihitems it hit2

/-- Claim C8: a successful `create` persists, per item, `lineTotal =
quantityInBaseUom * unitPriceInBaseUom` with the unit price frozen from
the product's `pricePerBaseUom`, and a `totalAmount` equal to the sum of
the items' line totals. -/
theorem createOrder_line_totals (products : List Product) (invs : InventoryDb)
    (buyerId newOrderId : ℕ) (itemsIn : List CreateItemInput) (order : Order)
    (h : createOrder products invs buyerId newOrderId itemsIn = .ok order) :
    order.status = .PENDING ∧
    order.totalAmount = (order.items.map OrderItem.lineTotal).sum ∧
    ∀ it ∈ order.items,
      it.lineTotal = it.quantityInBaseUom * it.unitPriceInBaseUom ∧
      ∃ p ∈ products, p.id = it.productId ∧
        it.unitPriceInBaseUom = p.pricePerBaseUom := by
  unfold createOrder at h
  by_cases hlen : (products.filter fun p =>
      p.isActive && (itemsIn.map (·.productId)).contains p.id).length ≠
      (itemsIn.map (·.productId)).length
  · rw [if_pos hlen] at h; cases h
  · rw [if_neg hlen] at h
    cases hp : processItems (products.filter fun p =>
        p.isActive && (itemsIn.map (·.productId)).contains p.id) invs itemsIn with
    | error e => rw [hp] at h; cases h
    | ok out =>
      rw [hp] at h
      obtain ⟨hsum, hitems⟩ := processItems_spec itemsIn _ invs out hp
      cases out with
      | mk orderItems totalAmount =>
        dsimp only at h
        cases h
        refine ⟨rfl, hsum, fun it hit => ?_⟩
        obtain ⟨hlt, p, hpmem, hpid, hprice⟩ := hitems it hit
        exact ⟨hlt, p, List.mem_of_mem_filter hpmem, hpid, hprice⟩

/-- Witness for C8: creating an order of 2 KILOGRAM of a GRAM-based
product priced 0.005 per gram stores a 2000-gram item with line total 10
and a matching order total. -/
theorem createOrder_line_totals_witness :
    createOrder [⟨1, 7, .GRAM, 1/200, true⟩] [(1, ⟨10000, 0⟩)] 2 5
        [⟨1, 2, .KILOGRAM⟩] =
      .ok ⟨5, 2, .PENDING, 10, [⟨1, 2, .KILOGRAM, 2000, 1/200, 10⟩]⟩ ∧
    ((⟨5, 2, .PENDING, 10, [⟨1, 2, .KILOGRAM, 2000, 1/200, 10⟩]⟩ : Order).status
        = .PENDING ∧
     (⟨5, 2, .PENDING, 10, [⟨1, 2, .KILOGRAM, 2000, 1/200, 10⟩]⟩ : Order).totalAmount =
      (((⟨5, 2, .PENDING, 10, [⟨1, 2, .KILOGRAM, 2000, 1/200, 10⟩]⟩ : Order).items.map
        OrderItem.lineTotal).sum) ∧
     ∀ it ∈ (⟨5, 2, .PENDING, 10, [⟨1, 2, .KILOGRAM, 2000, 1/200, 10⟩]⟩ : Order).items,
       it.lineTotal = it.quantityInBaseUom * it.unitPriceInBaseUom ∧
       ∃ p ∈ [(⟨1, 7, .GRAM, 1/200, true⟩ : Product)], p.id = it.productId ∧
         it.unitPriceInBaseUom = p.pricePerBaseUom) := by
  have h : createOrder [⟨1, 7, .GRAM, 1/200, true⟩] [(1, ⟨10000, 0⟩)] 2 5
      [⟨1, 2, .KILOGRAM⟩] =
      .ok ⟨5, 2, .PENDING, 10, [⟨1, 2, .KILOGRAM, 2000, 1/200, 10⟩]⟩ := by
    have hconv : convertToBaseUom 2 .KILOGRAM .GRAM = some 2000 := by
      have hr : findRule .KILOGRAM .GRAM = some ⟨.KILOGRAM, .GRAM, 1000⟩ := rfl
      rw [convertToBaseUom, hr]
      norm_num
    norm_num [createOrder, processItems, isCompatible, conversionRules, hconv,
      qtyOpt, reservedOpt, findInv]
  exact ⟨h, createOrder_line_totals _ _ 2 5 _ _ h⟩

/-!  Order-number generation under two concurrent creates (claim C7). -/

theorem nodup_append_singleton (l : List String) (a : String) (hnd : l.Nodup)
    (ha : a ∉ l) : (l ++ [a]).Nodup := by
  simp [List.nodup_append, hnd, ha]

theorem insert_serial_spec (db0 : List String) (year : ℕ) (hnd : db0.Nodup) :
    (insertOrder (insertOrder db0 year db0.length).1 year
      (insertOrder db0 year db0.length).1.length).1.Nodup ∧
    ∀ s1 s2, (insertOrder db0 year db0.length).2 = .ok s1 →
      (insertOrder (insertOrder db0 year db0.length).1 year
        (insertOrder db0 year db0.length).1.length).2 = .ok s2 →
      s1.2 ≠ s2.2 ∧ s1.1 ≠ s2.1 ∧ s1.2 = mkOrderNumber year s1.1 ∧
        s2.2 = mkOrderNumber year s2.1 ∧ s1.1 = db0.length + 1 ∧
        s2.1 = db0.length + 2 := by
  by_cases h1 : mkOrderNumber year (db0.length + 1) ∈ db0
  · simp only [insertOrder, if_pos h1]
    exact ⟨hnd, fun s1 s2 hs1 _ => by cases hs1⟩
  · simp only [insertOrder, if_neg h1]
    have hlen1 : (db0 ++ [mkOrderNumber year (db0.length + 1)]).length =
        db0.length + 1 := by simp
    rw [hlen1]
    by_cases h2 : mkOrderNumber year (db0.length + 1 + 1) ∈
        db0 ++ [mkOrderNumber year (db0.length + 1)]
    · rw [if_pos h2]
      exact ⟨nodup_append_singleton _ _ hnd h1, fun s1 s2 _ hs2 => by cases hs2⟩
    · rw [if_neg h2]
      refine ⟨nodup_append_singleton _ _ (nodup_append_singleton _ _ hnd h1) h2,
        fun s1 s2 hs1 hs2 => ?_⟩
      cases hs1
      cases hs2
      have hmem1 : mkOrderNumber year (db0.length + 1) ∈
          db0 ++ [mkOrderNumber year (db0.length + 1)] := by simp
      refine ⟨fun heq => h2 ?_, by omega, rfl, rfl, rfl, by omega⟩
      dsimp only at heq
      rw [← heq]
      exact hmem1

theorem insert_overlap_spec (db0 : List String) (year : ℕ) (hnd : db0.Nodup) :
    (insertOrder (insertOrder db0 year db0.length).1 year db0.length).1.Nodup ∧
    ∀ s1 s2, (insertOrder db0 year db0.length).2 = .ok s1 →
      (insertOrder (insertOrder db0 year db0.length).1 year db0.length).2 =
        .ok s2 →
      False := by
  by_cases h1 : mkOrderNumber year (db0.length + 1) ∈ db0
  · simp only [insertOrder, if_pos h1]
    exact ⟨hnd, fun s1 s2 hs1 _ => by cases hs1⟩
  · simp only [insertOrder, if_neg h1]
    have h2 : mkOrderNumber year (db0.length + 1) ∈
        db0 ++ [mkOrderNumber year (db0.length + 1)] := by simp
    rw [if_pos h2]
    exact ⟨nodup_append_singleton _ _ hnd h1, fun s1 s2 _ hs2 => by cases hs2⟩

/-- Claim C7: with the unique constraint on `orderNumber` (modelled from
the spec, `schema.prisma` not being among the sources), every
interleaving of two concurrent creates keeps the stored order numbers
duplicate-free, and whenever both calls succeed their numbers are
distinct, in the `ORD-<year>-<sequence>` format, with consecutive
increasing sequence values — a collision between successful calls is
impossible. -/
theorem orderNumber_concurrent_safe (db0 : List String) (year : ℕ)
    (sched : Sched) (hnd : db0.Nodup) :
    (runSched db0 year sched).1.Nodup ∧
    ∀ sA sB, (runSched db0 year sched).2.1 = .ok sA →
      (runSched db0 year sched).2.2 = .ok sB →
      sA.2 ≠ sB.2 ∧ sA.1 ≠ sB.1 ∧
      sA.2 = mkOrderNumber year sA.1 ∧ sB.2 = mkOrderNumber year sB.1 ∧
      min sA.1 sB.1 = db0.length + 1 ∧ max sA.1 sB.1 = db0.length + 2 := by
  cases sched with
  | raiarbib =>
    obtain ⟨hnodup, hok⟩ := insert_serial_spec db0 year hnd
    refine ⟨hnodup, fun sA sB hA hB => ?_⟩
    obtain ⟨hne, hne1, hfmtA, hfmtB, hA1, hB1⟩ := hok sA sB hA hB
    exact ⟨hne, hne1, hfmtA, hfmtB, by omega, by omega⟩
  | rbibraia =>
    obtain ⟨hnodup, hok⟩ := insert_serial_spec db0 year hnd
    refine ⟨hnodup, fun sA sB hA hB => ?_⟩
    obtain ⟨hne, hne1, hfmtB, hfmtA, hB1, hA1⟩ := hok sB sA hB hA
    exact ⟨fun h => hne h.symm, fun h => hne1 h.symm, hfmtA, hfmtB,
      by omega, by omega⟩
  | rarbiaib =>
    obtain ⟨hnodup, hok⟩ := insert_overlap_spec db0 year hnd
    exact ⟨hnodup, fun sA sB hA hB => absurd (hok sA sB hA hB) not_false⟩
  | rbraiaib =>
    obtain ⟨hnodup, hok⟩ := insert_overlap_spec db0 year hnd
    exact ⟨hnodup, fun sA sB hA hB => absurd (hok sA sB hA hB) not_false⟩
  | rarbibia =>
    obtain ⟨hnodup, hok⟩ := insert_overlap_spec db0 year hnd
    exact ⟨hnodup, fun sA sB hA hB => absurd (hok sB sA hB hA) not_false⟩
  | rbraibia =>
    obtain ⟨hnodup, hok⟩ := insert_overlap_spec db0 year hnd
    exact ⟨hnodup, fun sA sB hA hB => absurd (hok sB sA hB hA) not_false⟩

/-- Witness for C7: two creates serialized A-then-B over an empty store
in year 2024 produce ORD-2024-001 and ORD-2024-002. -/
theorem orderNumber_concurrent_safe_witness :
    ([] : List String).Nodup ∧
    ((runSched [] 2024 .raiarbib).1.Nodup ∧
     ∀ sA sB, (runSched [] 2024 .raiarbib).2.1 = .ok sA →
       (runSched [] 2024 .raiarbib).2.2 = .ok sB →
       sA.2 ≠ sB.2 ∧ sA.1 ≠ sB.1 ∧
       sA.2 = mkOrderNumber 2024 sA.1 ∧ sB.2 = mkOrderNumber 2024 sB.1 ∧
       min sA.1 sB.1 = ([] : List String).length + 1 ∧
       max sA.1 sB.1 = ([] : List String).length + 2) :=
  ⟨List.nodup_nil, orderNumber_concurrent_safe [] 2024 .raiarbib List.nodup_nil⟩

end OMS
